import Mathlib

/-!
Verification of the in-memory data layer of a classifieds-marketplace
backend (user store, advertisement store, token store, and the
authorization checks of the routing layer).

The embedding follows the Python modules:
  * `users_storage.py` — user records in a dict keyed by id;
  * `storage.py`       — advertisement records in a dict keyed by id;
  * `auth.py`          — bearer tokens with a 48-hour TTL;
  * `main.py`          — route handlers performing authorization.

Dicts keyed by fresh UUIDs are modelled as lists of records together with
a `nextId` counter supplying fresh ids; `datetime` instants are modelled
as natural numbers (seconds); Python `None`-able fields of the PATCH
schemas are `Option`s where `none` means "field not supplied".
-/

namespace MarketApp

/-- The `group` field of a user: `Literal["user", "admin"]` in `schemas.py`. -/
inductive Group where
  | user
  | admin
deriving DecidableEq, Repr

/-- `UserCreate` schema: username, password, group (all present). -/
structure UserCreate where
  username : String
  password : String
  group : Group
deriving DecidableEq, Repr

/-- `UserUpdate` schema: every field optional (`exclude_unset` PATCH). -/
structure UserUpdate where
  username : Option String
  password : Option String
  group : Option Group
deriving DecidableEq, Repr

/-- A record held in the `_users` dict of `users_storage.py`. -/
structure UserRecord where
  id : Nat
  username : String
  password : String
  group : Group
  created_at : Nat
deriving DecidableEq, Repr

/-- `UserResponse` schema: the user record without the password. -/
structure UserResponse where
  id : Nat
  username : String
  group : Group
  created_at : Nat
deriving DecidableEq, Repr

/-- `_to_response` of `users_storage.py`: drop the password field. -/
def toResponse (r : UserRecord) : UserResponse :=
  { id := r.id, username := r.username, group := r.group, created_at := r.created_at }

/-- The `_users` dict together with the source of fresh ids (`uuid4`). -/
structure UserStore where
  users : List UserRecord
  nextId : Nat
deriving DecidableEq, Repr

def UserStore.empty : UserStore := ⟨[], 0⟩

/-- The `ValueError` raised on a duplicate username. -/
inductive StoreError where
  | duplicateUsername
deriving DecidableEq, Repr

/-- `users_storage.create`: reject when some record already holds the
username (case-sensitive `==`), otherwise insert a fresh record. -/
def usersCreate (u : UserCreate) (now : Nat) (s : UserStore) :
    Except StoreError UserResponse × UserStore :=
  if s.users.any (fun rec => rec.username == u.username) then
    (.error .duplicateUsername, s)
  else
    let record : UserRecord :=
      { id := s.nextId, username := u.username, password := u.password
        group := u.group, created_at := now }
    (.ok (toResponse record), ⟨s.users ++ [record], s.nextId + 1⟩)

/-- `users_storage.get_by_id`. -/
def get_by_id (uid : Nat) (s : UserStore) : Option UserResponse :=
  (s.users.find? (fun rec => rec.id == uid)).map toResponse

/-- `users_storage.list_users`: responses sorted by `created_at` ascending
(Python `list.sort` is stable, as is `List.mergeSort`). -/
def list_users (s : UserStore) : List UserResponse :=
  (s.users.map toResponse).mergeSort (fun a b => decide (a.created_at ≤ b.created_at))

/-- The guard `if new_username and new_username != record["username"]` of
`users_storage.update` (Python truthiness: `""` is falsy). -/
def usernameChanged (d : UserUpdate) (cur : String) : Bool :=
  match d.username with
  | none => false
  | some u => u != "" && u != cur

/-- `record.update(update_data)` for a user: replace exactly the supplied
fields. -/
def applyUserUpdate (d : UserUpdate) (r : UserRecord) : UserRecord :=
  { r with
    username := d.username.getD r.username
    password := d.password.getD r.password
    group := d.group.getD r.group }

/-- `users_storage.update`: `None` on an unknown id; `ValueError` when the
username is being changed and another record (the target excluded by id)
already holds the new value; otherwise apply the partial update. -/
def usersUpdate (uid : Nat) (d : UserUpdate) (s : UserStore) :
    Except StoreError (Option UserResponse) × UserStore :=
  match s.users.find? (fun rec => rec.id == uid) with
  | none => (.ok none, s)
  | some r =>
    if usernameChanged d r.username &&
        s.users.any (fun q => q.username == d.username.getD r.username && q.id != uid) then
      (.error .duplicateUsername, s)
    else
      (.ok (some (toResponse (applyUserUpdate d r))),
       ⟨s.users.map (fun q => if q.id == uid then applyUserUpdate d q else q), s.nextId⟩)

/-- `users_storage.delete`: `True` and removal when the id is present,
`False` otherwise. -/
def usersDelete (uid : Nat) (s : UserStore) : Bool × UserStore :=
  if s.users.any (fun rec => rec.id == uid) then
    (true, ⟨s.users.filter (fun rec => rec.id != uid), s.nextId⟩)
  else
    (false, s)

/-- `users_storage.verify_password`: first record matching both username
and password, if any. -/
def verify_password (username password : String) (s : UserStore) : Option UserResponse :=
  (s.users.find? (fun rec => rec.username == username && rec.password == password)).map
    toResponse

/-- `AdvertisementCreate` schema. Prices are `float` in the source but are
only ever compared, never combined arithmetically, so they are modelled as
rationals. -/
structure AdvertisementCreate where
  title : String
  description : String
  price : ℚ
  author : String
deriving DecidableEq, Repr

/-- `AdvertisementUpdate` schema: every field optional. -/
structure AdvertisementUpdate where
  title : Option String
  description : Option String
  price : Option ℚ
  author : Option String
deriving DecidableEq, Repr

/-- A record of the `_advertisements` dict of `storage.py`; the
`AdvertisementResponse` schema exposes exactly these fields. -/
structure AdRecord where
  id : Nat
  title : String
  description : String
  price : ℚ
  author : String
  created_at : Nat
deriving DecidableEq, Repr

/-- The `_advertisements` dict together with the source of fresh ids. -/
structure AdStore where
  ads : List AdRecord
  nextId : Nat
deriving DecidableEq, Repr

def AdStore.empty : AdStore := ⟨[], 0⟩

/-- `storage.create`: always succeeds, assigns a fresh id and timestamp. -/
def adsCreate (ad : AdvertisementCreate) (now : Nat) (s : AdStore) :
    AdRecord × AdStore :=
  let record : AdRecord :=
    { id := s.nextId, title := ad.title, description := ad.description
      price := ad.price, author := ad.author, created_at := now }
  (record, ⟨s.ads ++ [record], s.nextId + 1⟩)

/-- `storage.get_by_id`. -/
def adGet (adId : Nat) (s : AdStore) : Option AdRecord :=
  s.ads.find? (fun rec => rec.id == adId)

/-- `record.update(update_dict)` for an advertisement: replace exactly the
supplied fields. -/
def applyAdUpdate (d : AdvertisementUpdate) (r : AdRecord) : AdRecord :=
  { r with
    title := d.title.getD r.title
    description := d.description.getD r.description
    price := d.price.getD r.price
    author := d.author.getD r.author }

/-- `storage.update`: `None` on an unknown id, otherwise apply the partial
update and return the updated record. -/
def adsUpdate (adId : Nat) (d : AdvertisementUpdate) (s : AdStore) :
    Option AdRecord × AdStore :=
  match s.ads.find? (fun rec => rec.id == adId) with
  | none => (none, s)
  | some r =>
    (some (applyAdUpdate d r),
     ⟨s.ads.map (fun q => if q.id == adId then applyAdUpdate d q else q), s.nextId⟩)

/-- `storage.delete`. -/
def adsDelete (adId : Nat) (s : AdStore) : Bool × AdStore :=
  if s.ads.any (fun rec => rec.id == adId) then
    (true, ⟨s.ads.filter (fun rec => rec.id != adId), s.nextId⟩)
  else
    (false, s)

/-- Python `str.lower()` applied to a string, as a character list. -/
def lowerStr (str : String) : List Char :=
  str.data.map Char.toLower

/-- Python `needle.lower() in hay.lower()`: case-insensitive substring
containment. -/
def containsCI (needle hay : String) : Bool :=
  decide (lowerStr needle <:+: lowerStr hay)

/-- The optional query parameters of `storage.search`. -/
structure SearchQuery where
  title : Option String
  description : Option String
  price_min : Option ℚ
  price_max : Option ℚ
  author : Option String
deriving DecidableEq, Repr

def SearchQuery.empty : SearchQuery := ⟨none, none, none, none, none⟩

/-- The per-record filter of `storage.search`: a record is kept iff no
provided filter rejects it (`continue` in the source loop). -/
def matchesQuery (q : SearchQuery) (r : AdRecord) : Bool :=
  (match q.title with
   | none => true
   | some t => containsCI t r.title) &&
  (match q.description with
   | none => true
   | some dsc => containsCI dsc r.description) &&
  (match q.price_min with
   | none => true
   | some m => !(decide (r.price < m))) &&
  (match q.price_max with
   | none => true
   | some m => !(decide (m < r.price))) &&
  (match q.author with
   | none => true
   | some a => containsCI a r.author)

/-- `storage.search`: filter then stable sort by `created_at` descending
(`result.sort(key=..., reverse=True)`). -/
def search (q : SearchQuery) (s : AdStore) : List AdRecord :=
  (s.ads.filter (matchesQuery q)).mergeSort (fun a b => decide (b.created_at ≤ a.created_at))

/-- `TOKEN_TTL_HOURS = 48` of `auth.py`, in model time units (seconds). -/
def tokenTTL : Nat := 48 * 3600

/-- A value of the `_tokens` dict of `auth.py`. -/
structure TokenEntry where
  user_id : Nat
  expires_at : Nat
deriving DecidableEq, Repr

/-- The `_tokens` dict: token string to entry, keys unique by
construction. -/
abbrev TokenStore := List (String × TokenEntry)

/-- `auth.create_token`: record the token with expiry `now + 48h` (dict
assignment overwrites any previous binding of the same key). -/
def create_token (tok : String) (uid : Nat) (now : Nat) (ts : TokenStore) : TokenStore :=
  (tok, ⟨uid, now + tokenTTL⟩) :: ts.filter (fun p => p.1 != tok)

/-- `auth._get_user_by_token`: absent token resolves to none; an entry with
`expires_at < now` is deleted and resolves to none; otherwise the user
store is consulted for the associated id. -/
def getUserByToken (tok : String) (now : Nat) (ts : TokenStore) (us : UserStore) :
    Option UserResponse × TokenStore :=
  match ts.find? (fun p => p.1 == tok) with
  | none => (none, ts)
  | some entry =>
    if entry.2.expires_at < now then
      (none, ts.filter (fun p => p.1 != tok))
    else
      (get_by_id entry.2.user_id us, ts)

/-- The whole process state: the three module-level dicts. -/
structure AppState where
  users : UserStore
  ads : AdStore
  tokens : TokenStore
deriving DecidableEq, Repr

/-- The store mutation performed by the `DELETE /user/{user_id}` handler:
only `users_storage.delete` is called, no other store is touched. -/
def deleteUserApp (uid : Nat) (st : AppState) : Bool × AppState :=
  let res := usersDelete uid st.users
  (res.1, { st with users := res.2 })

/-- Outcome of a route handler, as far as the stores are concerned. -/
inductive ApiOutcome (α : Type) where
  | ok (a : α)
  | notFound
  | forbidden
deriving DecidableEq, Repr

/-- `main.create_advertisement`: the client-supplied author is replaced by
the authenticated caller's username before the store is called. -/
def create_advertisement (caller : UserResponse) (ad : AdvertisementCreate)
    (now : Nat) (s : AdStore) : AdRecord × AdStore :=
  let adWithAuthor : AdvertisementCreate :=
    { title := ad.title, description := ad.description
      price := ad.price, author := caller.username }
  adsCreate adWithAuthor now s

/-- `main.update_advertisement`: 404 on an unknown id; 403 unless the
caller is admin or is the (pre-update) author; otherwise delegate to
`storage.update`. -/
def update_advertisement (caller : UserResponse) (adId : Nat)
    (d : AdvertisementUpdate) (s : AdStore) : ApiOutcome (Option AdRecord) × AdStore :=
  match adGet adId s with
  | none => (.notFound, s)
  | some ad =>
    if caller.group != Group.admin && caller.username != ad.author then
      (.forbidden, s)
    else
      let res := adsUpdate adId d s
      (.ok res.1, res.2)

/-- `main.delete_advertisement`: 404 on an unknown id; 403 unless the
caller is admin or is the author; otherwise delegate to `storage.delete`. -/
def delete_advertisement (caller : UserResponse) (adId : Nat) (s : AdStore) :
    ApiOutcome Unit × AdStore :=
  match adGet adId s with
  | none => (.notFound, s)
  | some ad =>
    if caller.group != Group.admin && caller.username != ad.author then
      (.forbidden, s)
    else
      (.ok (), (adsDelete adId s).2)

/-- A single user-store operation, as issued by the routing layer. -/
inductive UserOp where
  | create (u : UserCreate) (now : Nat)
  | update (uid : Nat) (d : UserUpdate)
  | delete (uid : Nat)
deriving DecidableEq, Repr

/-- Apply one operation to the user store, keeping the resulting state
(exceptions leave the state unchanged). -/
def stepUser (s : UserStore) (op : UserOp) : UserStore :=
  match op with
  | .create u now => (usersCreate u now s).2
  | .update uid d => (usersUpdate uid d s).2
  | .delete uid => (usersDelete uid s).2

/-- Run a sequence of operations from the initial empty store. -/
def runUserOps (ops : List UserOp) : UserStore :=
  ops.foldl stepUser UserStore.empty

/-- Input validity enforced upstream by the pydantic schemas
(`min_length=1` on every username field): supplied usernames are
non-empty. -/
def WFUserOp : UserOp → Prop
  | .create u _ => u.username ≠ ""
  | .update _ d => ∀ u0 ∈ d.username, u0 ≠ ""
  | .delete _ => True

/-- Well-formedness of a user store: ids are bounded by the fresh-id
counter and pairwise distinct (dict keys), and live usernames are pairwise
distinct (the enforced invariant). -/
def StoreInv (s : UserStore) : Prop :=
  (∀ r ∈ s.users, r.id < s.nextId) ∧
  (s.users.map (fun r => r.id)).Nodup ∧
  (s.users.map (fun r => r.username)).Nodup

/-- Two user records that agree on everything except possibly the stored
password. -/
def RecordEquiv (a b : UserRecord) : Prop :=
  a.id = b.id ∧ a.username = b.username ∧ a.group = b.group ∧ a.created_at = b.created_at

/-- Two user stores that differ only in stored password values. -/
def StoreEquiv (s t : UserStore) : Prop :=
  s.nextId = t.nextId ∧ List.Forall₂ RecordEquiv s.users t.users

/-- Lift a relation to options: both absent, or both present and related. -/
def OptionRel {α β : Type} (R : α → β → Prop) : Option α → Option β → Prop
  | none, none => True
  | some a, some b => R a b
  | _, _ => False

/-- Concrete fixtures used to evaluate the statements on closed inputs. -/
def demoAlice : UserRecord := ⟨0, "alice", "pw", .user, 0⟩

def demoUsers : UserStore := ⟨[demoAlice], 1⟩

def demoUsersAltPw : UserStore := ⟨[⟨0, "alice", "pw2", .user, 0⟩], 1⟩

def demoAd : AdRecord := ⟨0, "Bike", "red bike", 100, "alice", 5⟩

def demoAds : AdStore := ⟨[demoAd], 1⟩

def demoBob : UserResponse := ⟨1, "bob", .user, 0⟩

def demoAliceResp : UserResponse := ⟨0, "alice", .user, 0⟩

def demoTokens : TokenStore := [("tok", ⟨7, 100⟩)]

end MarketApp

namespace MarketApp

/-- Claim C6: whenever `UserStore.create` or `UserStore.update` fails with
`DuplicateUsername`, the user-store state after the failed call is
identical to the state before it — the uniqueness check precedes any
mutation. -/
theorem duplicate_username_failure_is_pure :
    (∀ (u : UserCreate) (now : Nat) (s : UserStore),
      (usersCreate u now s).1 = .error .duplicateUsername → (usersCreate u now s).2 = s) ∧
    (∀ (uid : Nat) (d : UserUpdate) (s : UserStore),
      (usersUpdate uid d s).1 = .error .duplicateUsername → (usersUpdate uid d s).2 = s) := by
  constructor
  · intro u now s h
    by_cases hdup : s.users.any (fun rec => rec.username == u.username) = true
    · simp [usersCreate, hdup]
    · simp [usersCreate, hdup] at h
  · intro uid d s h
    cases hfind : s.users.find? (fun rec => rec.id == uid) with
    | none => simp [usersUpdate, hfind]
    | some r =>
      by_cases hguard : (usernameChanged d r.username &&
          s.users.any (fun q => q.username == d.username.getD r.username && q.id != uid)) = true
      · simp [usersUpdate, hfind, hguard]
      · simp [usersUpdate, hfind, hguard] at h

/-- Closed instance of `duplicate_username_failure_is_pure`: creating a
second `alice` fails and leaves the store untouched. -/
theorem duplicate_username_failure_is_pure_witness :
    (usersCreate ⟨"alice", "x", .user⟩ 5 demoUsers).2 = demoUsers :=
  duplicate_username_failure_is_pure.1 ⟨"alice", "x", .user⟩ 5 demoUsers rfl

/-- Claim C8: for both stores, delete on an absent id returns false and
changes nothing; delete on a present id returns true and a subsequent get
returns none. -/
theorem delete_miss_and_hit_semantics :
    (∀ (uid : Nat) (s : UserStore),
      (get_by_id uid s = none → usersDelete uid s = (false, s)) ∧
      (get_by_id uid s ≠ none →
        (usersDelete uid s).1 = true ∧ get_by_id uid (usersDelete uid s).2 = none)) ∧
    (∀ (adId : Nat) (s : AdStore),
      (adGet adId s = none → adsDelete adId s = (false, s)) ∧
      (adGet adId s ≠ none →
        (adsDelete adId s).1 = true ∧ adGet adId (adsDelete adId s).2 = none)) := by
  constructor
  · intro uid s
    constructor
    · intro h
      have hf : s.users.find? (fun rec => rec.id == uid) = none := by
        simpa [get_by_id] using h
      have hany : s.users.any (fun rec => rec.id == uid) = false := by
        rw [List.any_eq_false]
        exact List.find?_eq_none.mp hf
      simp [usersDelete, hany]
    · intro h
      obtain ⟨r, hr⟩ : ∃ r, s.users.find? (fun rec => rec.id == uid) = some r := by
        rcases ho : s.users.find? (fun rec => rec.id == uid) with _ | r
        · exact absurd (by simp [get_by_id, ho]) h
        · exact ⟨r, ho⟩
      have hany : s.users.any (fun rec => rec.id == uid) = true := by
        rw [List.any_eq_true]
        exact ⟨r, List.mem_of_find?_eq_some hr, by simpa using List.find?_some hr⟩
      refine ⟨by simp [usersDelete, hany], ?_⟩
      simp only [usersDelete, hany, if_pos]
      simp only [get_by_id, Option.map_eq_none']
      rw [List.find?_eq_none]
      intro x hx
      have hxid := (List.mem_filter.mp hx).2
      simp only [bne_iff_ne, ne_eq] at hxid
      simp [hxid]
  · intro adId s
    constructor
    · intro h
      have hany : s.ads.any (fun rec => rec.id == adId) = false := by
        rw [List.any_eq_false]
        exact List.find?_eq_none.mp h
      simp [adsDelete, hany]
    · intro h
      obtain ⟨r, hr⟩ : ∃ r, s.ads.find? (fun rec => rec.id == adId) = some r := by
        rcases ho : s.ads.find? (fun rec => rec.id == adId) with _ | r
        · exact absurd ho h
        · exact ⟨r, ho⟩
      have hany : s.ads.any (fun rec => rec.id == adId) = true := by
        rw [List.any_eq_true]
        exact ⟨r, List.mem_of_find?_eq_some hr, by simpa using List.find?_some hr⟩
      refine ⟨by simp [adsDelete, hany], ?_⟩
      simp only [adsDelete, hany, if_pos]
      simp only [adGet]
      rw [List.find?_eq_none]
      intro x hx
      have hxid := (List.mem_filter.mp hx).2
      simp only [bne_iff_ne, ne_eq] at hxid
      simp [hxid]

/-- Closed instance of `delete_miss_and_hit_semantics`: deleting the absent
id 7 is a no-op returning false, and deleting the present id 0 returns
true. -/
theorem delete_miss_and_hit_semantics_witness :
    usersDelete 7 demoUsers = (false, demoUsers) ∧ (usersDelete 0 demoUsers).1 = true :=
  ⟨(delete_miss_and_hit_semantics.1 7 demoUsers).1 (by decide),
   ((delete_miss_and_hit_semantics.1 0 demoUsers).2 (by decide)).1⟩

/-- Claim C9: the stored advertisement's author field equals the
authenticated caller's username; the author supplied in the request body
is discarded and replaced before the store is called. -/
theorem created_ad_author_is_caller :
    ∀ (caller : UserResponse) (ad : AdvertisementCreate) (now : Nat) (s : AdStore),
      (create_advertisement caller ad now s).1.author = caller.username ∧
      (create_advertisement caller ad now s).2.ads
        = s.ads ++ [(create_advertisement caller ad now s).1] ∧
      (∀ a0 : String,
        create_advertisement caller { ad with author := a0 } now s
          = create_advertisement caller ad now s) :=
  fun _ _ _ _ => ⟨rfl, rfl, fun _ => rfl⟩

/-- Claim C7: deleting a user removes no entries from the token store, and
resolving an unexpired token whose associated user id no longer exists
returns none while leaving the token store (and hence the entry)
untouched. -/
theorem user_deletion_token_decoupling :
    (∀ (uid : Nat) (st : AppState), (deleteUserApp uid st).2.tokens = st.tokens) ∧
    (∀ (tok : String) (now : Nat) (ts : TokenStore) (us : UserStore)
        (entry : String × TokenEntry),
      ts.find? (fun p => p.1 == tok) = some entry →
      ¬ entry.2.expires_at < now →
      get_by_id entry.2.user_id us = none →
      getUserByToken tok now ts us = (none, ts)) := by
  constructor
  · intro uid st
    rfl
  · intro tok now ts us entry hfind hexp huser
    simp [getUserByToken, hfind, hexp, huser]

/-- Closed instance of `user_deletion_token_decoupling`: a live token for
the deleted user id 7 resolves to none and stays stored. -/
theorem user_deletion_token_decoupling_witness :
    getUserByToken "tok" 50 demoTokens demoUsers = (none, demoTokens) :=
  user_deletion_token_decoupling.2 "tok" 50 demoTokens demoUsers ("tok", ⟨7, 100⟩)
    (by decide) (by decide) (by decide)

/-- Counterexample to claim C2 as stated: at exactly `issueTime + 48h` the
expiry check `expires_at < now` is still false, so the token resolves to
the associated user instead of returning none "at or after that
instant". -/
theorem token_expiry_boundary_cex :
    (getUserByToken "tok" (0 + tokenTTL) (create_token "tok" 0 0 []) demoUsers).1
        = some demoAliceResp ∧
      some demoAliceResp ≠ (none : Option UserResponse) := by
  constructor
  · decide
  · decide

/-- Claim C2 (amended): a token issued at `issueTime` resolves — via the
user-store lookup of its associated user id — at any time up to and
including `issueTime + 48h`, leaving the token store unchanged; strictly
after that instant the first resolve returns none and deletes the entry;
a token absent from the store resolves to none. -/
theorem token_expiry_lazy :
    ∀ (tok : String) (uid issueT qT : Nat) (ts : TokenStore) (us : UserStore),
      (qT ≤ issueT + tokenTTL →
        getUserByToken tok qT (create_token tok uid issueT ts) us
          = (get_by_id uid us, create_token tok uid issueT ts)) ∧
      (issueT + tokenTTL < qT →
        (getUserByToken tok qT (create_token tok uid issueT ts) us).1 = none ∧
        ((getUserByToken tok qT (create_token tok uid issueT ts) us).2.find?
            (fun p => p.1 == tok)) = none) ∧
      (ts.find? (fun p => p.1 == tok) = none →
        getUserByToken tok qT ts us = (none, ts)) := by
  intro tok uid issueT qT ts us
  have hfind : (create_token tok uid issueT ts).find? (fun p => p.1 == tok)
      = some (tok, ⟨uid, issueT + tokenTTL⟩) := by
    simp [create_token]
  refine ⟨?_, ?_, ?_⟩
  · intro hle
    have hnot : ¬ (issueT + tokenTTL < qT) := not_lt.mpr hle
    simp [getUserByToken, hfind, hnot]
  · intro hlt
    constructor
    · simp [getUserByToken, hfind, hlt]
    · simp only [getUserByToken, hfind, hlt, if_true]
      rw [List.find?_eq_none]
      intro p hp
      have hne := (List.mem_filter.mp hp).2
      simpa using hne
  · intro habs
    simp [getUserByToken, habs]

/-- Closed instance of `token_expiry_lazy`: a freshly issued token resolves
shortly after issue. -/
theorem token_expiry_lazy_witness :
    getUserByToken "tok" 7 (create_token "tok" 0 0 []) demoUsers
      = (get_by_id 0 demoUsers, create_token "tok" 0 0 []) :=
  (token_expiry_lazy "tok" 0 0 7 [] demoUsers).1 (by decide)

/-- Claim C3: for an existing advertisement, update and delete are allowed
iff the caller's role is admin or the caller's username equals the
advertisement's (pre-update) author; otherwise the outcome is forbidden
and the advertisement store is unchanged. -/
theorem ad_modification_authorization :
    ∀ (caller : UserResponse) (adId : Nat) (d : AdvertisementUpdate) (s : AdStore)
      (ad0 : AdRecord),
      adGet adId s = some ad0 →
      (((update_advertisement caller adId d s).1 = ApiOutcome.forbidden
          ↔ ¬(caller.group = Group.admin ∨ caller.username = ad0.author)) ∧
       ((delete_advertisement caller adId s).1 = ApiOutcome.forbidden
          ↔ ¬(caller.group = Group.admin ∨ caller.username = ad0.author)) ∧
       (¬(caller.group = Group.admin ∨ caller.username = ad0.author) →
          (update_advertisement caller adId d s).2 = s ∧
          (delete_advertisement caller adId s).2 = s)) := by
  intro caller adId d s ad0 hget
  by_cases hok : caller.group = Group.admin ∨ caller.username = ad0.author
  · have hguard : (caller.group != Group.admin && caller.username != ad0.author) = false := by
      rcases hok with h | h <;> simp [h]
    refine ⟨?_, ?_, fun hcon => absurd hok hcon⟩
    · refine iff_of_false ?_ (not_not_intro hok)
      simp [update_advertisement, hget, hguard]
    · refine iff_of_false ?_ (not_not_intro hok)
      simp [delete_advertisement, hget, hguard]
  · have hguard : (caller.group != Group.admin && caller.username != ad0.author) = true := by
      push_neg at hok
      simp [hok.1, hok.2]
    refine ⟨?_, ?_, fun _ => ?_⟩
    · refine iff_of_true ?_ hok
      simp [update_advertisement, hget, hguard]
    · refine iff_of_true ?_ hok
      simp [delete_advertisement, hget, hguard]
    · constructor
      · simp [update_advertisement, hget, hguard]
      · simp [delete_advertisement, hget, hguard]

/-- Closed instance of `ad_modification_authorization`: non-author `bob`
is forbidden from updating alice's advertisement. -/
theorem ad_modification_authorization_witness :
    (update_advertisement demoBob 0 ⟨some "X", none, none, none⟩ demoAds).1
      = ApiOutcome.forbidden :=
  ((ad_modification_authorization demoBob 0 ⟨some "X", none, none, none⟩ demoAds demoAd
      (by decide)).1).mpr (by decide)

/-- `find?` commutes with mapping a function that preserves the search
predicate. -/
theorem find?_map_congr {α : Type} (g : α → α) (p : α → Bool)
    (hp : ∀ a, p (g a) = p a) (l : List α) :
    (l.map g).find? p = (l.find? p).map g := by
  induction l with
  | nil => rfl
  | cons a t ih =>
    cases h : p a with
    | true => simp [List.find?_cons, hp, h]
    | false => simp [List.find?_cons, hp, h, ih]

/-- Claim C5: a partial update on an existing record changes exactly the
supplied fields; unsupplied fields — and always `id` and `created_at` —
keep their prior values, and records with other ids are untouched. Stated
for both the advertisement store and the user store (for the latter, on
any update that does not fail with `DuplicateUsername`). -/
theorem partial_update_frame :
    (∀ (adId : Nat) (d : AdvertisementUpdate) (s : AdStore) (r : AdRecord),
      adGet adId s = some r →
      ((adsUpdate adId d s).1 = some (applyAdUpdate d r) ∧
       adGet adId (adsUpdate adId d s).2 = some (applyAdUpdate d r) ∧
       (applyAdUpdate d r).id = r.id ∧
       (applyAdUpdate d r).created_at = r.created_at ∧
       (d.title = none → (applyAdUpdate d r).title = r.title) ∧
       (∀ v ∈ d.title, (applyAdUpdate d r).title = v) ∧
       (d.description = none → (applyAdUpdate d r).description = r.description) ∧
       (∀ v ∈ d.description, (applyAdUpdate d r).description = v) ∧
       (d.price = none → (applyAdUpdate d r).price = r.price) ∧
       (∀ v ∈ d.price, (applyAdUpdate d r).price = v) ∧
       (d.author = none → (applyAdUpdate d r).author = r.author) ∧
       (∀ v ∈ d.author, (applyAdUpdate d r).author = v) ∧
       (∀ j, j ≠ adId → adGet j (adsUpdate adId d s).2 = adGet j s))) ∧
    (∀ (uid : Nat) (d : UserUpdate) (s : UserStore) (r : UserRecord),
      s.users.find? (fun rec => rec.id == uid) = some r →
      (usersUpdate uid d s).1 ≠ .error .duplicateUsername →
      ((usersUpdate uid d s).1 = .ok (some (toResponse (applyUserUpdate d r))) ∧
       (usersUpdate uid d s).2.users.find? (fun rec => rec.id == uid)
         = some (applyUserUpdate d r) ∧
       (applyUserUpdate d r).id = r.id ∧
       (applyUserUpdate d r).created_at = r.created_at ∧
       (d.username = none → (applyUserUpdate d r).username = r.username) ∧
       (∀ v ∈ d.username, (applyUserUpdate d r).username = v) ∧
       (d.password = none → (applyUserUpdate d r).password = r.password) ∧
       (∀ v ∈ d.password, (applyUserUpdate d r).password = v) ∧
       (d.group = none → (applyUserUpdate d r).group = r.group) ∧
       (∀ v ∈ d.group, (applyUserUpdate d r).group = v) ∧
       (∀ j, j ≠ uid →
         (usersUpdate uid d s).2.users.find? (fun rec => rec.id == j)
           = s.users.find? (fun rec => rec.id == j)))) := by
  constructor
  · intro adId d s r hget
    have hfind : s.ads.find? (fun rec => rec.id == adId) = some r := hget
    set g := fun q : AdRecord => if q.id == adId then applyAdUpdate d q else q with hg
    have hgid : ∀ q : AdRecord, (g q).id = q.id := by
      intro q
      by_cases hq : q.id = adId
      · simp [hg, hq, applyAdUpdate]
      · simp [hg, hq]
    have hrid : (r.id == adId) = true := by simpa using List.find?_some hfind
    have hmap : (adsUpdate adId d s).2.ads = s.ads.map g := by
      simp [adsUpdate, hfind, hg]
    refine ⟨by simp [adsUpdate, hfind], ?_, rfl, rfl,
      fun h => by simp [applyAdUpdate, h],
      fun v hv => by rw [Option.mem_def] at hv; simp [applyAdUpdate, hv],
      fun h => by simp [applyAdUpdate, h],
      fun v hv => by rw [Option.mem_def] at hv; simp [applyAdUpdate, hv],
      fun h => by simp [applyAdUpdate, h],
      fun v hv => by rw [Option.mem_def] at hv; simp [applyAdUpdate, hv],
      fun h => by simp [applyAdUpdate, h],
      fun v hv => by rw [Option.mem_def] at hv; simp [applyAdUpdate, hv], ?_⟩
    · calc adGet adId (adsUpdate adId d s).2
          = (s.ads.map g).find? (fun rec => rec.id == adId) := by rw [adGet, hmap]
        _ = (s.ads.find? (fun rec => rec.id == adId)).map g :=
            find?_map_congr g _ (fun q => by rw [hgid]) s.ads
        _ = some (g r) := by rw [hfind]; rfl
        _ = some (applyAdUpdate d r) := by
            have hr2 : r.id = adId := by simpa using hrid
            simp [hg, hr2]
    · intro j hj
      calc adGet j (adsUpdate adId d s).2
          = (s.ads.map g).find? (fun rec => rec.id == j) := by rw [adGet, hmap]
        _ = (s.ads.find? (fun rec => rec.id == j)).map g :=
            find?_map_congr g _ (fun q => by rw [hgid]) s.ads
        _ = adGet j s := by
            rw [adGet]
            cases hq : s.ads.find? (fun rec => rec.id == j) with
            | none => rfl
            | some q =>
              have hqj : q.id = j := by simpa using List.find?_some hq
              have hq2 : q.id ≠ adId := by rw [hqj]; exact hj
              simp [hg, hq2]
  · intro uid d s r hfind hne
    set g := fun q : UserRecord => if q.id == uid then applyUserUpdate d q else q with hg
    have hgid : ∀ q : UserRecord, (g q).id = q.id := by
      intro q
      by_cases hq : q.id = uid
      · simp [hg, hq, applyUserUpdate]
      · simp [hg, hq]
    have hguard : (usernameChanged d r.username &&
        s.users.any (fun q => q.username == d.username.getD r.username && q.id != uid))
          = false := by
      by_contra hcon
      have htrue : (usernameChanged d r.username &&
          s.users.any (fun q => q.username == d.username.getD r.username && q.id != uid))
            = true := by
        simpa using hcon
      exact hne (by simp [usersUpdate, hfind, htrue])
    have hrid : (r.id == uid) = true := by simpa using List.find?_some hfind
    have hmap : (usersUpdate uid d s).2.users = s.users.map g := by
      simp [usersUpdate, hfind, hguard, hg]
    refine ⟨by simp [usersUpdate, hfind, hguard], ?_, rfl, rfl,
      fun h => by simp [applyUserUpdate, h],
      fun v hv => by rw [Option.mem_def] at hv; simp [applyUserUpdate, hv],
      fun h => by simp [applyUserUpdate, h],
      fun v hv => by rw [Option.mem_def] at hv; simp [applyUserUpdate, hv],
      fun h => by simp [applyUserUpdate, h],
      fun v hv => by rw [Option.mem_def] at hv; simp [applyUserUpdate, hv], ?_⟩
    · calc (usersUpdate uid d s).2.users.find? (fun rec => rec.id == uid)
          = (s.users.map g).find? (fun rec => rec.id == uid) := by rw [hmap]
        _ = (s.users.find? (fun rec => rec.id == uid)).map g :=
            find?_map_congr g _ (fun q => by rw [hgid]) s.users
        _ = some (g r) := by rw [hfind]; rfl
        _ = some (applyUserUpdate d r) := by
            have hr2 : r.id = uid := by simpa using hrid
            simp [hg, hr2]
    · intro j hj
      calc (usersUpdate uid d s).2.users.find? (fun rec => rec.id == j)
          = (s.users.map g).find? (fun rec => rec.id == j) := by rw [hmap]
        _ = (s.users.find? (fun rec => rec.id == j)).map g :=
            find?_map_congr g _ (fun q => by rw [hgid]) s.users
        _ = s.users.find? (fun rec => rec.id == j) := by
            cases hq : s.users.find? (fun rec => rec.id == j) with
            | none => rfl
            | some q =>
              have hqj : q.id = j := by simpa using List.find?_some hq
              have hq2 : q.id ≠ uid := by rw [hqj]; exact hj
              simp [hg, hq2]

/-- Closed instance of `partial_update_frame`: updating only the price of
the demo advertisement keeps its title, description, author, id and
creation timestamp. -/
theorem partial_update_frame_witness :
    (adsUpdate 0 ⟨none, none, some 7, none⟩ demoAds).1
      = some (applyAdUpdate ⟨none, none, some 7, none⟩ demoAd) ∧
    (applyAdUpdate ⟨none, none, some 7, none⟩ demoAd).title = demoAd.title ∧
    (applyAdUpdate ⟨none, none, some 7, none⟩ demoAd).created_at = demoAd.created_at := by
  have h := partial_update_frame.1 0 ⟨none, none, some 7, none⟩ demoAds demoAd (by decide)
  exact ⟨h.1, h.2.2.2.2.1 rfl, h.2.2.2.1⟩

/-- The record filter of `storage.search`, expressed as the conjunction of
the individual filter predicates. -/
theorem matchesQuery_iff (q : SearchQuery) (r : AdRecord) :
    matchesQuery q r = true ↔
      ((∀ t ∈ q.title, lowerStr t <:+: lowerStr r.title) ∧
       (∀ dsc ∈ q.description, lowerStr dsc <:+: lowerStr r.description) ∧
       (∀ m ∈ q.price_min, m ≤ r.price) ∧
       (∀ m ∈ q.price_max, r.price ≤ m) ∧
       (∀ a ∈ q.author, lowerStr a <:+: lowerStr r.author)) := by
  obtain ⟨ot, od, opn, opx, oa⟩ := q
  cases ot <;> cases od <;> cases opn <;> cases opx <;> cases oa <;>
    simp [matchesQuery, containsCI, not_lt, Option.mem_def, and_assoc]

/-- The output of `storage.search` is sorted by creation timestamp
descending. -/
theorem search_pairwise (q : SearchQuery) (s : AdStore) :
    (search q s).Pairwise (fun a b => b.created_at ≤ a.created_at) := by
  have h := @List.sorted_mergeSort AdRecord
    (fun a b => decide (b.created_at ≤ a.created_at))
    (fun a b c hab hbc => by
      simp only [decide_eq_true_eq] at hab hbc ⊢
      exact le_trans hbc hab)
    (fun a b => by
      rcases Nat.le_total b.created_at a.created_at with h | h <;> simp [h])
    (s.ads.filter (matchesQuery q))
  exact h.imp (fun hab => by simpa using hab)

/-- Claim C4: a record appears in `search(F)` iff it is in the store and
satisfies every provided filter — case-insensitive substring containment
for title/description/author and inclusive price bounds; the result is
sorted by creation timestamp descending; with no filters every record is
returned, in that order. -/
theorem search_filter_conjunction :
    ∀ (q : SearchQuery) (s : AdStore) (r : AdRecord),
      (r ∈ search q s ↔
        (r ∈ s.ads ∧
         (∀ t ∈ q.title, lowerStr t <:+: lowerStr r.title) ∧
         (∀ dsc ∈ q.description, lowerStr dsc <:+: lowerStr r.description) ∧
         (∀ m ∈ q.price_min, m ≤ r.price) ∧
         (∀ m ∈ q.price_max, r.price ≤ m) ∧
         (∀ a ∈ q.author, lowerStr a <:+: lowerStr r.author))) ∧
      (search q s).Pairwise (fun a b => b.created_at ≤ a.created_at) ∧
      (r ∈ search SearchQuery.empty s ↔ r ∈ s.ads) := by
  intro q s r
  refine ⟨?_, search_pairwise q s, ?_⟩
  · rw [search, List.mem_mergeSort, List.mem_filter]
    exact and_congr_right (fun _ => matchesQuery_iff q r)
  · rw [search, List.mem_mergeSort, List.mem_filter]
    have hall : matchesQuery SearchQuery.empty r = true := rfl
    simp [hall]

/-- Closed instance of `search_filter_conjunction`: the unfiltered search
returns the demo record. -/
theorem search_filter_conjunction_witness :
    demoAd ∈ search SearchQuery.empty demoAds :=
  (search_filter_conjunction SearchQuery.empty demoAds demoAd).2.2.mpr (by decide)

/-- Password-equivalent records give equal responses (the password is
dropped by `_to_response`). -/
theorem toResponse_eq_of_equiv {a b : UserRecord} (h : RecordEquiv a b) :
    toResponse a = toResponse b := by
  obtain ⟨h1, h2, h3, h4⟩ := h
  simp [toResponse, h1, h2, h3, h4]

/-- Password-equivalent stores give equal response lists. -/
theorem map_toResponse_eq {l₁ l₂ : List UserRecord}
    (h : List.Forall₂ RecordEquiv l₁ l₂) :
    l₁.map toResponse = l₂.map toResponse := by
  induction h with
  | nil => rfl
  | cons hab htail ih => simp [toResponse_eq_of_equiv hab, ih]

/-- `any` with a password-independent predicate is invariant across
password-equivalent stores. -/
theorem any_congr_equiv {l₁ l₂ : List UserRecord} (p : UserRecord → Bool)
    (hp : ∀ a b, RecordEquiv a b → p a = p b)
    (h : List.Forall₂ RecordEquiv l₁ l₂) : l₁.any p = l₂.any p := by
  induction h with
  | nil => rfl
  | cons hab htail ih => simp [List.any_cons, hp _ _ hab, ih]

/-- `find?` with a password-independent predicate returns related results
on password-equivalent stores. -/
theorem find?_rel_equiv (p : UserRecord → Bool)
    (hp : ∀ a b, RecordEquiv a b → p a = p b) :
    ∀ {l₁ l₂ : List UserRecord}, List.Forall₂ RecordEquiv l₁ l₂ →
      OptionRel RecordEquiv (l₁.find? p) (l₂.find? p) := by
  intro l₁ l₂ h
  induction h with
  | nil => trivial
  | @cons a b t₁ t₂ hab htail ih =>
    cases hpa : p a with
    | true =>
      have hpb : p b = true := by rw [← hp _ _ hab]; exact hpa
      rw [List.find?_cons_of_pos _ hpa, List.find?_cons_of_pos _ hpb]
      exact hab
    | false =>
      have hpb : ¬ (p b = true) := by rw [← hp _ _ hab]; simp [hpa]
      rw [List.find?_cons_of_neg _ (by simp [hpa]), List.find?_cons_of_neg _ hpb]
      exact ih

/-- Applying the same partial update to password-equivalent records yields
password-equivalent records. -/
theorem applyUserUpdate_equiv {a b : UserRecord} (d : UserUpdate) (h : RecordEquiv a b) :
    RecordEquiv (applyUserUpdate d a) (applyUserUpdate d b) := by
  obtain ⟨h1, h2, h3, h4⟩ := h
  exact ⟨by simp [applyUserUpdate, h1], by simp [applyUserUpdate, h2],
         by simp [applyUserUpdate, h3], by simp [applyUserUpdate, h4]⟩

/-- Claim C10: for user stores that differ only in stored password values,
the outputs of get_by_id and list_users and the responses of create and
update are identical — no user-returning operation's output depends on the
stored credential. -/
theorem credential_noninterference :
    ∀ (s t : UserStore), StoreEquiv s t →
      ((∀ uid, get_by_id uid s = get_by_id uid t) ∧
       list_users s = list_users t ∧
       (∀ u now, (usersCreate u now s).1 = (usersCreate u now t).1) ∧
       (∀ uid d, (usersUpdate uid d s).1 = (usersUpdate uid d t).1)) := by
  intro s t hst
  obtain ⟨hnext, hrel⟩ := hst
  refine ⟨?_, ?_, ?_, ?_⟩
  · intro uid
    have h := find?_rel_equiv (fun rec => rec.id == uid)
      (fun a b hab => by simp only [hab.1]) hrel
    rw [get_by_id, get_by_id]
    cases h1 : s.users.find? (fun rec => rec.id == uid) with
    | none =>
      cases h2 : t.users.find? (fun rec => rec.id == uid) with
      | none => rfl
      | some b =>
        rw [h1, h2] at h
        exact absurd h (by simp [OptionRel])
    | some a =>
      cases h2 : t.users.find? (fun rec => rec.id == uid) with
      | none =>
        rw [h1, h2] at h
        exact absurd h (by simp [OptionRel])
      | some b =>
        rw [h1, h2] at h
        have hab : RecordEquiv a b := h
        simp [toResponse_eq_of_equiv hab]
  · rw [list_users, list_users, map_toResponse_eq hrel]
  · intro u now
    have hany := any_congr_equiv (fun rec => rec.username == u.username)
      (fun a b hab => by simp only [hab.2.1]) hrel
    simp only [usersCreate]
    rw [hany, hnext]
    by_cases hc : t.users.any (fun rec => rec.username == u.username) = true
    · simp [hc]
    · simp [hc]
  · intro uid d
    have h := find?_rel_equiv (fun rec => rec.id == uid)
      (fun a b hab => by simp only [hab.1]) hrel
    cases h1 : s.users.find? (fun rec => rec.id == uid) with
    | none =>
      cases h2 : t.users.find? (fun rec => rec.id == uid) with
      | none => simp [usersUpdate, h1, h2]
      | some b =>
        rw [h1, h2] at h
        exact absurd h (by simp [OptionRel])
    | some a =>
      cases h2 : t.users.find? (fun rec => rec.id == uid) with
      | none =>
        rw [h1, h2] at h
        exact absurd h (by simp [OptionRel])
      | some b =>
        rw [h1, h2] at h
        have hab : RecordEquiv a b := h
        have hanyeq := any_congr_equiv
          (fun q => q.username == d.username.getD b.username && q.id != uid)
          (fun x y hxy => by simp only [hxy.1, hxy.2.1]) hrel
        simp only [usersUpdate, h1, h2]
        rw [hab.2.1, hanyeq]
        by_cases hg : (usernameChanged d b.username &&
            t.users.any (fun q => q.username == d.username.getD b.username && q.id != uid))
              = true
        · simp [hg]
        · simp [hg, toResponse_eq_of_equiv (applyUserUpdate_equiv d hab)]

/-- Closed instance of `credential_noninterference`: two single-user stores
differing only in the stored password give the same lookup output. -/
theorem credential_noninterference_witness :
    get_by_id 0 demoUsers = get_by_id 0 demoUsersAltPw :=
  (credential_noninterference demoUsers demoUsersAltPw
    ⟨rfl, List.Forall₂.cons ⟨rfl, rfl, rfl, rfl⟩ List.Forall₂.nil⟩).1 0

/-- `create` preserves the user-store invariant. -/
theorem storeInv_create (u : UserCreate) (now : Nat) (s : UserStore)
    (h : StoreInv s) : StoreInv (usersCreate u now s).2 := by
  obtain ⟨hbound, hids, hnames⟩ := h
  by_cases hdup : s.users.any (fun rec => rec.username == u.username) = true
  · simp only [usersCreate, hdup, if_true]
    exact ⟨hbound, hids, hnames⟩
  · have hdup2 : s.users.any (fun rec => rec.username == u.username) = false := by
      simpa using hdup
    have hno : ∀ q ∈ s.users, ¬ q.username = u.username := by
      intro q hq
      have hx := List.any_eq_false.mp hdup2 q hq
      simpa using hx
    simp only [usersCreate, hdup2, Bool.false_eq_true, if_false]
    refine ⟨?_, ?_, ?_⟩
    · intro r hr
      rcases List.mem_append.mp hr with h1 | h1
      · exact Nat.lt_succ_of_lt (hbound r h1)
      · simp only [List.mem_singleton] at h1
        rw [h1]
        exact Nat.lt_succ_self _
    · rw [List.map_append, List.nodup_append]
      refine ⟨hids, by simp, ?_⟩
      intro x hx hx2
      simp only [List.map_cons, List.map_nil, List.mem_singleton] at hx2
      rcases List.mem_map.mp hx with ⟨q, hq, hqid⟩
      rw [hx2] at hqid
      exact absurd (hqid ▸ hbound q hq) (lt_irrefl _)
    · rw [List.map_append, List.nodup_append]
      refine ⟨hnames, by simp, ?_⟩
      intro x hx hx2
      simp only [List.map_cons, List.map_nil, List.mem_singleton] at hx2
      rcases List.mem_map.mp hx with ⟨q, hq, hqname⟩
      rw [hx2] at hqname
      exact hno q hq hqname

/-- `delete` preserves the user-store invariant. -/
theorem storeInv_delete (uid : Nat) (s : UserStore) (h : StoreInv s) :
    StoreInv (usersDelete uid s).2 := by
  obtain ⟨hbound, hids, hnames⟩ := h
  by_cases hany : s.users.any (fun rec => rec.id == uid) = true
  · simp only [usersDelete, hany, if_true]
    refine ⟨?_, ?_, ?_⟩
    · intro r hr
      exact hbound r (List.mem_of_mem_filter hr)
    · exact List.Nodup.sublist ((List.filter_sublist s.users).map _) hids
    · exact List.Nodup.sublist ((List.filter_sublist s.users).map _) hnames
  · have hany2 : s.users.any (fun rec => rec.id == uid) = false := by simpa using hany
    simp only [usersDelete, hany2, Bool.false_eq_true, if_false]
    exact ⟨hbound, hids, hnames⟩

/-- `update` preserves the user-store invariant, for updates whose supplied
username is non-empty (guaranteed upstream by the schema). -/
theorem storeInv_update (uid : Nat) (d : UserUpdate) (s : UserStore)
    (hwf : ∀ u0 ∈ d.username, u0 ≠ "") (h : StoreInv s) :
    StoreInv (usersUpdate uid d s).2 := by
  obtain ⟨hbound, hids, hnames⟩ := h
  cases hfind : s.users.find? (fun rec => rec.id == uid) with
  | none =>
    simp only [usersUpdate, hfind]
    exact ⟨hbound, hids, hnames⟩
  | some r =>
    have hrmem : r ∈ s.users := List.mem_of_find?_eq_some hfind
    have hrid : r.id = uid := by simpa using List.find?_some hfind
    by_cases hguard : (usernameChanged d r.username &&
        s.users.any (fun q => q.username == d.username.getD r.username && q.id != uid))
          = true
    · simp only [usersUpdate, hfind, hguard, if_true]
      exact ⟨hbound, hids, hnames⟩
    · have hguard2 : (usernameChanged d r.username &&
          s.users.any (fun q => q.username == d.username.getD r.username && q.id != uid))
            = false := by
        simpa using hguard
      simp only [usersUpdate, hfind, hguard2, Bool.false_eq_true, if_false]
      set g := fun q : UserRecord => if q.id == uid then applyUserUpdate d q else q with hg
      have hgid : ∀ q : UserRecord, (g q).id = q.id := by
        intro q
        by_cases hq : q.id = uid
        · simp [hg, hq, applyUserUpdate]
        · simp [hg, hq]
      have hidmap : (s.users.map g).map (fun q => q.id) = s.users.map (fun q => q.id) := by
        rw [List.map_map]
        exact List.map_congr_left (fun q _ => hgid q)
      refine ⟨?_, ?_, ?_⟩
      · intro q hq
        rcases List.mem_map.mp hq with ⟨q0, hq0, hq0e⟩
        rw [← hq0e, hgid]
        exact hbound q0 hq0
      · rw [hidmap]
        exact hids
      · by_cases hchanged : usernameChanged d r.username = true
        · obtain ⟨u0, hu0⟩ : ∃ u0, d.username = some u0 := by
            cases hdu : d.username with
            | none =>
              rw [usernameChanged, hdu] at hchanged
              exact absurd hchanged (by simp)
            | some u0 => exact ⟨u0, rfl⟩
          have hany : s.users.any
              (fun q => q.username == d.username.getD r.username && q.id != uid) = false := by
            cases hA : s.users.any
                (fun q => q.username == d.username.getD r.username && q.id != uid) with
            | false => rfl
            | true =>
              rw [hchanged, hA] at hguard2
              exact absurd hguard2 (by simp)
          have hcol : ∀ q ∈ s.users, q.id ≠ uid → ¬ q.username = u0 := by
            intro q hq hqid hqname
            have hx := List.any_eq_false.mp hany q hq
            rw [hu0] at hx
            simp only [Option.getD_some, Bool.and_eq_true, beq_iff_eq, bne_iff_ne,
              ne_eq, not_and] at hx
            exact hx hqname hqid
          have hpair := (List.pairwise_map.mp hids).and (List.pairwise_map.mp hnames)
          rw [List.map_map]
          refine List.pairwise_map.mpr (hpair.imp_of_mem ?_)
          intro x y hx hy hxy
          obtain ⟨hxid, hxname⟩ := hxy
          by_cases hxu : x.id = uid <;> by_cases hyu : y.id = uid
          · exact absurd (hxu.trans hyu.symm) hxid
          · have hgx : (g x).username = u0 := by
              simp [hg, hxu, applyUserUpdate, hu0]
            have hgy : (g y).username = y.username := by simp [hg, hyu]
            rw [Function.comp_apply, Function.comp_apply, hgx, hgy]
            intro hcon
            exact hcol y hy hyu hcon.symm
          · have hgx : (g x).username = x.username := by simp [hg, hxu]
            have hgy : (g y).username = u0 := by
              simp [hg, hyu, applyUserUpdate, hu0]
            rw [Function.comp_apply, Function.comp_apply, hgx, hgy]
            intro hcon
            exact hcol x hx hxu hcon
          · have hgx : (g x).username = x.username := by simp [hg, hxu]
            have hgy : (g y).username = y.username := by simp [hg, hyu]
            rw [Function.comp_apply, Function.comp_apply, hgx, hgy]
            exact hxname
        · have huname : ∀ q ∈ s.users, (g q).username = q.username := by
            intro q hq
            by_cases hqu : q.id = uid
            · have hqr : q = r :=
                List.inj_on_of_nodup_map hids hq hrmem (by rw [hqu, hrid])
              subst hqr
              cases hdu : d.username with
              | none => simp [hg, hqu, applyUserUpdate, hdu]
              | some u0 =>
                have h1 : u0 ≠ "" := hwf u0 (by rw [hdu]; rfl)
                have h2 : u0 = q.username := by
                  simp only [usernameChanged, hdu, Bool.and_eq_true, bne_iff_ne, ne_eq,
                    not_and, not_not] at hchanged
                  exact hchanged h1
                simp [hg, hqu, applyUserUpdate, hdu, h2]
            · simp [hg, hqu]
          have hnamemap : (s.users.map g).map (fun q => q.username)
              = s.users.map (fun q => q.username) := by
            rw [List.map_map]
            exact List.map_congr_left (fun q hq => huname q hq)
          rw [hnamemap]
          exact hnames

/-- Claim C1: from the empty store, any sequence of well-formed
create/update/delete operations keeps live usernames pairwise distinct;
create fails with `DuplicateUsername` iff some existing record has the
same (case-sensitive) username; update on an existing record with a
supplied (non-empty) username fails with `DuplicateUsername` iff the new
username differs from the current one and some other record (the target
excluded by id) already holds it. -/
theorem username_uniqueness :
    (∀ ops : List UserOp, (∀ op ∈ ops, WFUserOp op) →
      ((runUserOps ops).users.map (fun r => r.username)).Nodup) ∧
    (∀ (u : UserCreate) (now : Nat) (s : UserStore),
      ((usersCreate u now s).1 = .error .duplicateUsername ↔
        ∃ q ∈ s.users, q.username = u.username)) ∧
    (∀ (uid : Nat) (d : UserUpdate) (s : UserStore) (r : UserRecord) (u0 : String),
      s.users.find? (fun rec => rec.id == uid) = some r →
      d.username = some u0 → u0 ≠ "" →
      ((usersUpdate uid d s).1 = .error .duplicateUsername ↔
        (u0 ≠ r.username ∧ ∃ q ∈ s.users, q.username = u0 ∧ q.id ≠ uid))) := by
  refine ⟨?_, ?_, ?_⟩
  · intro ops hwf
    have hstep : ∀ (s : UserStore) (op : UserOp), StoreInv s → WFUserOp op →
        StoreInv (stepUser s op) := by
      intro s op hs hop
      cases op with
      | create u now => exact storeInv_create u now s hs
      | update uid d => exact storeInv_update uid d s hop hs
      | delete uid => exact storeInv_delete uid s hs
    have hrun : ∀ (l : List UserOp) (s : UserStore), StoreInv s →
        (∀ op ∈ l, WFUserOp op) → StoreInv (l.foldl stepUser s) := by
      intro l
      induction l with
      | nil => exact fun s hs _ => hs
      | cons op t ih =>
        intro s hs hl
        rw [List.foldl_cons]
        exact ih _ (hstep s op hs (hl op (List.mem_cons_self op t)))
          (fun op2 h2 => hl op2 (List.mem_cons_of_mem op h2))
    have hempty : StoreInv UserStore.empty :=
      ⟨fun r hr => absurd hr (List.not_mem_nil r), List.nodup_nil, List.nodup_nil⟩
    exact (hrun ops UserStore.empty hempty hwf).2.2
  · intro u now s
    by_cases hdup : s.users.any (fun rec => rec.username == u.username) = true
    · refine iff_of_true (by simp [usersCreate, hdup]) ?_
      rcases List.any_eq_true.mp hdup with ⟨q, hq, hq2⟩
      exact ⟨q, hq, by simpa using hq2⟩
    · have hdup2 : s.users.any (fun rec => rec.username == u.username) = false := by
        simpa using hdup
      refine iff_of_false (by simp [usersCreate, hdup2]) ?_
      rintro ⟨q, hq, hq2⟩
      exact absurd (List.any_eq_true.mpr ⟨q, hq, by simpa using hq2⟩) hdup
  · intro uid d s r u0 hfind hd hne
    have hchanged : usernameChanged d r.username = (u0 != "" && u0 != r.username) := by
      simp [usernameChanged, hd]
    by_cases hcase : u0 ≠ r.username ∧ ∃ q ∈ s.users, q.username = u0 ∧ q.id ≠ uid
    · obtain ⟨hur, q, hq, hqu, hqid⟩ := hcase
      have hany : s.users.any (fun q2 => q2.username == u0 && q2.id != uid) = true := by
        rw [List.any_eq_true]
        exact ⟨q, hq, by simp [hqu, hqid]⟩
      have hguard : (usernameChanged d r.username &&
          s.users.any (fun q2 => q2.username == d.username.getD r.username && q2.id != uid))
            = true := by
        rw [hchanged, hd]
        simp only [Option.getD_some]
        rw [Bool.and_eq_true, Bool.and_eq_true]
        exact ⟨⟨by simpa using hne, by simpa using hur⟩, hany⟩
      refine iff_of_true (by simp [usersUpdate, hfind, hguard]) ⟨hur, q, hq, hqu, hqid⟩
    · have hguard : (usernameChanged d r.username &&
          s.users.any (fun q2 => q2.username == d.username.getD r.username && q2.id != uid))
            = false := by
        cases hG : (usernameChanged d r.username &&
            s.users.any
              (fun q2 => q2.username == d.username.getD r.username && q2.id != uid)) with
        | false => rfl
        | true =>
          exfalso
          rw [hchanged, hd] at hG
          simp only [Option.getD_some, Bool.and_eq_true, bne_iff_ne, ne_eq] at hG
          obtain ⟨⟨h1, h2⟩, h3⟩ := hG
          rcases List.any_eq_true.mp h3 with ⟨q, hq, hq2⟩
          simp only [Bool.and_eq_true, beq_iff_eq, bne_iff_ne] at hq2
          exact hcase ⟨h2, q, hq, hq2.1, hq2.2⟩
      refine iff_of_false ?_ hcase
      simp [usersUpdate, hfind, hguard]

/-- Closed instance of `username_uniqueness`: two well-formed creates from
the empty store leave pairwise-distinct usernames. -/
theorem username_uniqueness_witness :
    ((runUserOps [UserOp.create ⟨"alice", "pw", Group.user⟩ 0,
                  UserOp.create ⟨"bob", "pw", Group.user⟩ 1]).users.map
        (fun r => r.username)).Nodup :=
  username_uniqueness.1 _ (by
    intro op hop
    simp only [List.mem_cons, List.not_mem_nil, or_false] at hop
    rcases hop with rfl | rfl <;> simp only [WFUserOp] <;> decide)

end MarketApp
